import Mathlib

/-!
Shallow embedding of the voltorb-flip game model (src/model.py) and proofs
checking the natural-language specification against it.

Conventions of the embedding:
* Python lists become Lean `List`s; Python indexing that may raise
  `IndexError` becomes `Option`-valued access.
* Python `float` arithmetic on the small decimal literals of the source
  (`0.3`, `0.5`, `* 3 / 4`) is embedded exactly in `ℚ` with `Int.floor`.
* The ambient random sources (`random.randint`, `random.shuffle`) are
  abstracted into explicit parameters; theorems quantify over every
  outcome the Python generator can produce.
-/

/-- Python-style single-list read `l[i]`: non-negative indices read from the
front, negative indices of magnitude at most `l.length` wrap around from the
back, anything else is an `IndexError`, embedded as `none`. -/
def pyGet {α : Type} (l : List α) (i : ℤ) : Option α :=
  if 0 ≤ i then l.get? i.toNat
  else if 0 ≤ (l.length : ℤ) + i then l.get? ((l.length : ℤ) + i).toNat
  else none

/-- Read a cell of a nested list at non-negative indices; `none` is a Python
`IndexError`. -/
def get2? {α : Type} (g : List (List α)) (r c : ℕ) : Option α :=
  (g.get? r).bind (fun row => row.get? c)

/-- Read a cell of a nested list with a default value for out-of-range reads. -/
def get2D {α : Type} (g : List (List α)) (r c : ℕ) (d : α) : α :=
  (get2? g r c).getD d

/-- Write a cell of a nested list.  Out-of-range writes leave the grid
unchanged; the model only performs writes at cells it has just read. -/
def set2 {α : Type} (g : List (List α)) (r c : ℕ) (a : α) : List (List α) :=
  match g.get? r with
  | none => g
  | some row => g.set r (row.set c a)

/-- Python `range(0, stop, step)` for a positive step. -/
def rangeStep (stop step : ℕ) : List ℕ :=
  (List.range ((stop + step - 1) / step)).map (fun i => i * step)

/-- reshape2D from src/model.py.  It asserts `len(array) == length * width`
and then builds `[array[n:(n + length)] for n in range(0, len(array), length)]`;
`none` embeds the failed assert (and the `ValueError` a zero step would raise).
Note the comprehension slices by `length`, the number of rows. -/
def reshape2D {α : Type} (array : List α) (length width : ℕ) : Option (List (List α)) :=
  if array.length = length * width then
    if 0 < length then
      some ((rangeStep array.length length).map (fun n => (array.drop n).take length))
    else none
  else none

/-- The `total_tiles - math.floor(total_tiles * 3 / 4)` quantity of
difficulty_to_tile_distribution (number of multiplier tiles). -/
def num_multiplier_tiles (length width : ℕ) : ℤ :=
  (length * width : ℕ) - Int.floor (((length * width : ℕ) : ℚ) * 3 / 4)

/-- The `max(0, num_multiplier_tiles - difficulty)` lower bound passed to
`random.randint` in difficulty_to_tile_distribution. -/
def low_bound_two_tiles (length width difficulty : ℕ) : ℤ :=
  max 0 (num_multiplier_tiles length width - difficulty)

/-- difficulty_to_tile_distribution from src/model.py.  The float expressions
`total_tiles * 0.3 + difficulty * 0.5` and `total_tiles * 3 / 4` are embedded
exactly in `ℚ`; the `random.randint(low_bound_two_tiles, num_multiplier_tiles)`
draw is abstracted into the `twosDraw` parameter, constrained in the theorems
to the inclusive range `random.randint` draws from. -/
def difficulty_to_tile_distribution (length width difficulty : ℕ) (twosDraw : ℤ) : List ℤ :=
  let total_tiles : ℕ := length * width
  let bombs : ℤ := Int.floor ((total_tiles : ℚ) * 0.3 + (difficulty : ℚ) * 0.5)
  let ones : ℤ := Int.floor ((total_tiles : ℚ) * 3 / 4) - bombs
  let threes : ℤ := num_multiplier_tiles length width - twosDraw
  [bombs, ones, twosDraw, threes]

/-- The flat tile sequence generate_board builds before shuffling:
`distribution[v]` copies of `v`, concatenated in increasing value order. -/
def flat_of_distribution (dist : List ℕ) : List ℕ :=
  (dist.enum.map (fun p => List.replicate p.2 p.1)).flatten

/-- generate_board from src/model.py.  The tile distribution (in the source
the result of `difficulty_to_tile_distribution(length, width, difficulty)`)
and the `random.shuffle` permutation are abstracted into parameters; the
theorems quantify over every `shuffle` that permutes its input. -/
def generate_board (length width : ℕ) (dist : List ℕ) (shuffle : List ℕ → List ℕ) :
    Option (List (List ℕ)) :=
  reshape2D (shuffle (flat_of_distribution dist)) length width

/-- get_row_data from src/model.py: per row, the pair of the row sum and the
number of bombs (zero tiles) in that row. -/
def get_row_data (board : List (List ℕ)) : List (ℕ × ℕ) :=
  board.map (fun row => (row.sum, row.count 0))

/-- get_col_data from src/model.py, faithfully including its loop bounds: it
iterates `col_num in range(len(board))` and builds each column with
`row_num in range(len(board[0]))`, reading `board[row_num][col_num]`.
`none` embeds a Python `IndexError` (raised on any non-square board) or the
`board[0]` failure on an empty board. -/
def get_col_data (board : List (List ℕ)) : Option (List (ℕ × ℕ)) :=
  match board.get? 0 with
  | none => none
  | some row0 =>
    (List.range board.length).mapM (fun col_num =>
      ((List.range row0.length).mapM (fun row_num => get2? board row_num col_num)).map
        (fun col => (col.sum, col.count 0)))

/-- C5: evaluation of reshape2D at the failing input length = 2, width = 3.
The claim says the flat sequence is reshaped row-major into `length` rows of
`width` cells each; the code instead slices by `length`, producing `width`
rows of `length` cells (the transposed shape), contradicting the bounds
checks of Model.flip_tile which assume `length` rows. -/
theorem c5_reshape_gives_transposed_shape :
    reshape2D ([0, 1, 2, 3, 4, 5] : List ℕ) 2 3 = some [[0, 1], [2, 3], [4, 5]] ∧
    ([[0, 1], [2, 3], [4, 5]] : List (List ℕ)).length ≠ 2 := by decide

/-- C6: evaluation at the failing input.  generate_board 2 3 with the tile
distribution [1, 2, 2, 1] and an identity shuffle yields the non-square board
[[0, 1], [1, 2], [2, 3]]; get_row_data succeeds on it but get_col_data raises
an IndexError (embedded as `none`), because it iterates columns over
`len(board)` and rows over `len(board[0])`, so the row/column hint sums cannot
even be compared on a non-square generated board. -/
theorem c6_col_data_fails_on_nonsquare_board :
    generate_board 2 3 [1, 2, 2, 1] id = some [[0, 1], [1, 2], [2, 3]] ∧
    get_row_data [[0, 1], [1, 2], [2, 3]] = [(1, 1), (3, 0), (5, 0)] ∧
    get_col_data [[0, 1], [1, 2], [2, 3]] = none := by decide

/-- C7: for every length ≥ 1, width ≥ 1 and difficulty ≥ 1 whose bomb count
`floor(length*width*0.3 + difficulty*0.5)` does not exceed
`floor(length*width*3/4)`, and for every value the `random.randint` draw for
the 2-tiles can produce, the resulting tile distribution is a 4-element
sequence of non-negative integers summing exactly to `length * width`. -/
theorem c7_distribution_valid (length width difficulty : ℕ) (twosDraw : ℤ)
    (hl : 1 ≤ length) (hw : 1 ≤ width) (hd : 1 ≤ difficulty)
    (hguard : Int.floor (((length * width : ℕ) : ℚ) * 0.3 + (difficulty : ℚ) * 0.5) ≤
      Int.floor (((length * width : ℕ) : ℚ) * 3 / 4))
    (hlo : low_bound_two_tiles length width difficulty ≤ twosDraw)
    (hhi : twosDraw ≤ num_multiplier_tiles length width) :
    (difficulty_to_tile_distribution length width difficulty twosDraw).length = 4 ∧
    (difficulty_to_tile_distribution length width difficulty twosDraw).sum =
      ((length * width : ℕ) : ℤ) ∧
    ∀ x ∈ difficulty_to_tile_distribution length width difficulty twosDraw, 0 ≤ x := by
  refine ⟨rfl, ?_, ?_⟩
  · simp only [difficulty_to_tile_distribution, num_multiplier_tiles, List.sum_cons,
      List.sum_nil]
    ring
  · intro x hx
    simp only [difficulty_to_tile_distribution, num_multiplier_tiles, List.mem_cons,
      List.not_mem_nil, or_false] at hx
    rcases hx with rfl | rfl | rfl | rfl
    · refine Int.floor_nonneg.mpr ?_
      positivity
    · have := hguard
      omega
    · exact le_trans (le_max_left 0 _) hlo
    · have hnm := hhi
      simp only [num_multiplier_tiles] at hnm
      omega

/-- C7 witness: the hypotheses of c7_distribution_valid hold at the concrete
input length = 5, width = 5, difficulty = 1, twosDraw = 6, and the
conclusion follows there. -/
theorem c7_distribution_valid_witness :
    (difficulty_to_tile_distribution 5 5 1 6).length = 4 ∧
    (difficulty_to_tile_distribution 5 5 1 6).sum = ((5 * 5 : ℕ) : ℤ) ∧
    ∀ x ∈ difficulty_to_tile_distribution 5 5 1 6, 0 ≤ x := by
  refine c7_distribution_valid 5 5 1 6 (by norm_num) (by norm_num) (by norm_num) ?_ ?_ ?_
  · have h1 : Int.floor (((5 * 5 : ℕ) : ℚ) * 0.3 + ((1 : ℕ) : ℚ) * 0.5) = 8 := by
      rw [Int.floor_eq_iff]; norm_num
    have h2 : Int.floor (((5 * 5 : ℕ) : ℚ) * 3 / 4) = 18 := by
      rw [Int.floor_eq_iff]; norm_num
    rw [h1, h2]
    norm_num
  · have h2 : Int.floor (((5 * 5 : ℕ) : ℚ) * 3 / 4) = 18 := by
      rw [Int.floor_eq_iff]; norm_num
    simp only [low_bound_two_tiles, num_multiplier_tiles, h2]
    norm_num
  · have h2 : Int.floor (((5 * 5 : ℕ) : ℚ) * 3 / 4) = 18 := by
      rw [Int.floor_eq_iff]; norm_num
    simp only [num_multiplier_tiles, h2]
    norm_num

/-- Unfolding step for the slice offsets of reshape2D: for a non-empty input,
the offsets are 0 followed by the offsets for the input with its first `k`
elements removed, shifted by `k`. -/
lemma rangeStep_succ (L k : ℕ) (hk : 0 < k) (hL : 0 < L) :
    rangeStep L k = 0 :: (rangeStep (L - k) k).map (fun n => n + k) := by
  unfold rangeStep
  have h1 : (L + k - 1) / k = (L - 1) / k + 1 := by
    have he : L + k - 1 = (L - 1) + k := by omega
    rw [he, Nat.add_div_right _ hk]
  have h2 : (L - k + k - 1) / k = (L - 1) / k := by
    rcases le_or_lt k L with h | h
    · have he : L - k + k - 1 = L - 1 := by omega
      rw [he]
    · have e1 : L - k = 0 := by omega
      rw [e1, Nat.zero_add, Nat.div_eq_of_lt (by omega), Nat.div_eq_of_lt (by omega)]
  rw [h1, h2, List.range_succ_eq_map]
  simp only [List.map_cons, List.map_map, Nat.zero_mul]
  congr 1
  apply List.map_congr_left
  intro a _
  simp only [Function.comp_apply, Nat.succ_mul]

/-- Concatenating the slices `array[n:n+k]` for `n in range(0, len(array), k)`
recovers the original list, for every positive slice size `k`. -/
lemma flatten_chunks {α : Type} (k : ℕ) (hk : 0 < k) (l : List α) :
    ((rangeStep l.length k).map (fun n => (l.drop n).take k)).flatten = l := by
  suffices h : ∀ (N : ℕ) (l : List α), l.length ≤ N →
      ((rangeStep l.length k).map (fun n => (l.drop n).take k)).flatten = l from
    h l.length l le_rfl
  intro N
  induction N with
  | zero =>
    intro l hl
    have hnil : l = [] := List.length_eq_zero.mp (Nat.le_zero.mp hl)
    subst hnil
    simp only [rangeStep, List.length_nil, Nat.zero_add,
      Nat.div_eq_of_lt (show k - 1 < k by omega), List.range_zero, List.map_nil,
      List.flatten_nil]
  | succ N ih =>
    intro l hl
    rcases Nat.eq_zero_or_pos l.length with h0 | hpos
    · have hnil : l = [] := List.length_eq_zero.mp h0
      subst hnil
      simp only [rangeStep, List.length_nil, Nat.zero_add,
        Nat.div_eq_of_lt (show k - 1 < k by omega), List.range_zero, List.map_nil,
        List.flatten_nil]
    · rw [rangeStep_succ _ _ hk hpos]
      simp only [List.map_cons, List.map_map, List.drop_zero, List.flatten_cons]
      have hmap : ((rangeStep (l.length - k) k).map
          ((fun n => (l.drop n).take k) ∘ fun n => n + k)) =
          (rangeStep ((l.drop k).length) k).map (fun n => ((l.drop k).drop n).take k) := by
        rw [List.length_drop]
        apply List.map_congr_left
        intro a _
        simp only [Function.comp_apply]
        rw [Nat.add_comm a k, ← List.drop_drop]
      rw [hmap, ih (l.drop k) (by simp only [List.length_drop]; omega)]
      exact List.take_append_drop k l

/-- C8: for every 4-entry tile distribution, every permutation the
`random.shuffle` can produce, and every board generate_board builds from
them, the number of board cells equal to v is exactly entry v of the
distribution, for each v in {0, 1, 2, 3}. -/
theorem c8_board_counts_match_distribution (d0 d1 d2 d3 L W : ℕ)
    (shuffle : List ℕ → List ℕ) (board : List (List ℕ))
    (hperm : List.Perm (shuffle (flat_of_distribution [d0, d1, d2, d3]))
      (flat_of_distribution [d0, d1, d2, d3]))
    (hgen : generate_board L W [d0, d1, d2, d3] shuffle = some board) :
    board.flatten.count 0 = d0 ∧ board.flatten.count 1 = d1 ∧
    board.flatten.count 2 = d2 ∧ board.flatten.count 3 = d3 := by
  have hL : 0 < L := by
    by_contra h
    have hL0 : L = 0 := by omega
    subst hL0
    simp only [generate_board, reshape2D] at hgen
    split at hgen
    · simp at hgen
    · exact Option.noConfusion hgen
  have hflat : board.flatten = shuffle (flat_of_distribution [d0, d1, d2, d3]) := by
    simp only [generate_board, reshape2D] at hgen
    split at hgen
    · have hb := Option.some.inj hgen
      rw [← hb]
      exact flatten_chunks L hL _
    · exact Option.noConfusion hgen
  have hcount : ∀ v : ℕ, board.flatten.count v =
      (flat_of_distribution [d0, d1, d2, d3]).count v := by
    intro v
    rw [hflat]
    exact hperm.count_eq v
  have hform : flat_of_distribution [d0, d1, d2, d3] =
      List.replicate d0 0 ++ (List.replicate d1 1 ++ (List.replicate d2 2 ++
        (List.replicate d3 3 ++ []))) := rfl
  refine ⟨?_, ?_, ?_, ?_⟩ <;>
    simp [hcount, hform, List.count_append, List.count_replicate]

/-- C8 witness: the hypotheses of c8_board_counts_match_distribution hold for
the distribution [1, 1, 1, 1] on a 2 by 2 board with the identity shuffle, and
the counts match there. -/
theorem c8_board_counts_match_distribution_witness :
    ([[0, 1], [2, 3]] : List (List ℕ)).flatten.count 0 = 1 ∧
    ([[0, 1], [2, 3]] : List (List ℕ)).flatten.count 1 = 1 ∧
    ([[0, 1], [2, 3]] : List (List ℕ)).flatten.count 2 = 1 ∧
    ([[0, 1], [2, 3]] : List (List ℕ)).flatten.count 3 = 1 :=
  c8_board_counts_match_distribution 1 1 1 1 2 2 id [[0, 1], [2, 3]]
    (by decide) (by decide)

/-- The dynamically-typed `self.score` of src/model.py: a Python int, or the
string "YOU LOSE" assigned on a first-flip bomb.  All scores the model
produces are non-negative, so the numeric case carries a natural number. -/
inductive Score where
  | num : ℕ → Score
  | text : String → Score
deriving DecidableEq, Repr

/-- The Python comparison `self.score == 0`: true only for the integer 0
(comparing the string "YOU LOSE" with 0 is False in Python). -/
def scoreEqZero : Score → Bool
  | .num 0 => true
  | _ => false

/-- The Python statement `self.score *= flipped_tile_value`: integer
multiplication on an int score, string repetition on a string score. -/
def scoreMul : Score → ℕ → Score
  | .num n, v => .num (n * v)
  | .text s, v => .text (String.join (List.replicate v s))

/-- The failure modes of Model.flip_tile in src/model.py.  The first three
are the raise statements with their distinct messages, in source order:
outOfBounds is "Played in a tile that does not exist on the board.",
alreadyFlipped is "This tile has already been flipped!", and gameAlreadyOver
is "The game is over, you already lost!".  indexError is an uncaught Python
IndexError escaping from a subscript on a malformed grid. -/
inductive FlipError where
  | outOfBounds
  | alreadyFlipped
  | gameAlreadyOver
  | indexError
deriving DecidableEq, Repr

/-- The state of the Model class of src/model.py. -/
structure Model where
  length : ℕ
  width : ℕ
  board : List (List ℕ)
  flipped : List (List Bool)
  row_data : List (ℕ × ℕ)
  col_data : List (ℕ × ℕ)
  score : Score
  game_over : Bool
deriving DecidableEq, Repr

/-- Model.__init__ from src/model.py, with the `generate_board` result
abstracted into the `board` parameter (its randomness is quantified over in
the generate_board theorems).  The flipped mask is
`reshape2D([False] * total_tiles, length, width)` exactly as in the source,
and `none` embeds an exception escaping from the constructor (the reshape
assert or the IndexError of get_col_data). -/
def Model.init (length width : ℕ) (board : List (List ℕ)) : Option Model :=
  match reshape2D (List.replicate (length * width) false) length width with
  | none => none
  | some flipped =>
    match get_col_data board with
    | none => none
    | some cd =>
      some { length := length, width := width, board := board, flipped := flipped,
             row_data := get_row_data board, col_data := cd,
             score := .num 0, game_over := false }

/-- Model.flip_tile from src/model.py.  The result pairs the state after the
call with the error raised, if any; every raise happens before any state
mutation, so the state component is the unchanged input state on every
error.  The precondition checks appear in source order: bounds, then
already-flipped, then game-over. -/
def flip_tile (m : Model) (row col : ℤ) : Model × Option FlipError :=
  if (m.length : ℤ) ≤ row ∨ row < 0 ∨ (m.width : ℤ) ≤ col ∨ col < 0 then
    (m, some .outOfBounds)
  else
    match get2? m.flipped row.toNat col.toNat with
    | none => (m, some .indexError)
    | some true => (m, some .alreadyFlipped)
    | some false =>
      if m.game_over then (m, some .gameAlreadyOver)
      else
        match get2? m.board row.toNat col.toNat with
        | none => (m, some .indexError)
        | some v =>
          let flipped2 := set2 m.flipped row.toNat col.toNat true
          let go2 := if v = 0 then true else m.game_over
          let score2 :=
            if scoreEqZero m.score then
              (if go2 then Score.text "YOU LOSE" else Score.num v)
            else scoreMul m.score v
          ({ m with flipped := flipped2, game_over := go2, score := score2 }, none)

/-- Model.describe_tile from src/model.py: no bounds check of its own, the
raw Python subscripts `self.flipped[row][col]` and `self.board[row][col]`
with their negative-index wrapping; `none` embeds an IndexError. -/
def describe_tile (m : Model) (row col : ℤ) : Option String :=
  match (pyGet m.flipped row).bind (fun r => pyGet r col) with
  | none => none
  | some false => some "?"
  | some true => ((pyGet m.board row).bind (fun r => pyGet r col)).map (fun v => toString v)

/-- The values of the revealed cells of one row: board row zipped with
flipped row, filtered to the flipped positions. -/
def rowRevealed (rowB : List ℕ) (rowF : List Bool) : List ℕ :=
  ((rowB.zip rowF).filter (fun p => p.2)).map Prod.fst

/-- The values of all revealed cells of a model. -/
def revealedValues (m : Model) : List ℕ :=
  ((m.board.zip m.flipped).map (fun p => rowRevealed p.1 p.2)).flatten

/-- Reachability between model states: zero or more successful flip_tile
calls (the only mutating operation of the class). -/
inductive Reach : Model → Model → Prop where
  | refl (m : Model) : Reach m m
  | step {m0 m1 m2 : Model} (row col : ℤ) :
      Reach m0 m1 → flip_tile m1 row col = (m2, none) → Reach m0 m2

/-- Well-formedness of a model state, following the data model of the spec:
board and flipped mask are `length` rows of `width` cells and the board
holds tile values in {0, 1, 2, 3}. -/
def WF (m : Model) : Prop :=
  m.board.length = m.length ∧ (∀ row ∈ m.board, row.length = m.width) ∧
  m.flipped.length = m.length ∧ (∀ row ∈ m.flipped, row.length = m.width) ∧
  (∀ row ∈ m.board, ∀ v ∈ row, v ≤ 3)

/-- The model freshly constructed on the 2 by 2 board [[2, 0], [1, 1]]. -/
def exM0 : Model :=
  { length := 2, width := 2, board := [[2, 0], [1, 1]],
    flipped := [[false, false], [false, false]],
    row_data := [(2, 1), (2, 0)], col_data := [(3, 0), (1, 1)],
    score := .num 0, game_over := false }

/-- exM0 after the successful flip of the 2-tile at (0, 0). -/
def exM1 : Model :=
  { exM0 with flipped := [[true, false], [false, false]], score := .num 2 }

/-- exM1 after the successful flip of the bomb at (0, 1). -/
def exM2 : Model :=
  { exM0 with
    flipped := [[true, true], [false, false]], score := .num 0,
    game_over := true }

/-- C1: evaluation at the failing input.  On the freshly constructed model
for the board [[2, 0], [1, 1]], flipping the 2-tile gives the positive score
2; then flipping the in-bounds, unrevealed bomb at (0, 1) does set game_over
to true, but multiplies the score to the integer 0 instead of setting the
Lost sentinel (the string "YOU LOSE"), contradicting the claim that the
sentinel is set regardless of the prior score. -/
theorem c1_bomb_with_positive_score_keeps_numeric_score :
    Model.init 2 2 [[2, 0], [1, 1]] = some exM0 ∧
    flip_tile exM0 0 0 = (exM1, none) ∧
    exM1.score = Score.num 2 ∧ exM1.game_over = false ∧
    get2? exM1.board 0 1 = some 0 ∧ get2? exM1.flipped 0 1 = some false ∧
    flip_tile exM1 0 1 = (exM2, none) ∧
    exM2.game_over = true ∧ exM2.score = Score.num 0 ∧
    exM2.score ≠ Score.text "YOU LOSE" := by decide

/-- C3: the three precondition checks of flip_tile fire in exactly the
source order bounds, already-flipped, game-over: each error is raised
precisely when its check is the first to fail, and every error leaves the
state (board, flipped mask, score, game_over flag) unchanged. -/
theorem c3_precondition_order_and_atomicity (m : Model) (row col : ℤ) :
    ((flip_tile m row col).2 = some FlipError.outOfBounds ↔
      ((m.length : ℤ) ≤ row ∨ row < 0 ∨ (m.width : ℤ) ≤ col ∨ col < 0)) ∧
    ((flip_tile m row col).2 = some FlipError.alreadyFlipped ↔
      (¬((m.length : ℤ) ≤ row ∨ row < 0 ∨ (m.width : ℤ) ≤ col ∨ col < 0) ∧
        get2? m.flipped row.toNat col.toNat = some true)) ∧
    ((flip_tile m row col).2 = some FlipError.gameAlreadyOver ↔
      (¬((m.length : ℤ) ≤ row ∨ row < 0 ∨ (m.width : ℤ) ≤ col ∨ col < 0) ∧
        get2? m.flipped row.toNat col.toNat = some false ∧ m.game_over = true)) ∧
    (∀ e, (flip_tile m row col).2 = some e → (flip_tile m row col).1 = m) := by
  by_cases hb : (m.length : ℤ) ≤ row ∨ row < 0 ∨ (m.width : ℤ) ≤ col ∨ col < 0
  · simp [flip_tile, hb]
  · rcases hf : get2? m.flipped row.toNat col.toNat with _ | b
    · simp [flip_tile, hb, hf]
    · cases b
      · by_cases hg : m.game_over = true
        · simp [flip_tile, hb, hf, hg]
        · rcases hv : get2? m.board row.toNat col.toNat with _ | v
          · simp [flip_tile, hb, hf, hg, hv]
          · simp [flip_tile, hb, hf, hg, hv]
      · simp [flip_tile, hb, hf]

/-- C3 witness: on the concrete model exM0, the out-of-bounds flip at row 5
raises outOfBounds and leaves the state unchanged, by
c3_precondition_order_and_atomicity. -/
theorem c3_precondition_order_witness :
    (flip_tile exM0 5 0).2 = some FlipError.outOfBounds ∧
    (flip_tile exM0 5 0).1 = exM0 := by
  have h := c3_precondition_order_and_atomicity exM0 5 0
  exact ⟨h.1.mpr (by decide), h.2.2.2 FlipError.outOfBounds (h.1.mpr (by decide))⟩

/-- Modelled from the spec: the score of the later, array-based GameModel
(spec section 3), a non-negative integer accumulator or one of the two
terminal sentinels Lost and Won.  That implementation is referenced by
src/view.py but is not under src/. -/
inductive SpecScore where
  | num : ℕ → SpecScore
  | lost
  | won
deriving DecidableEq, Repr

/-- Modelled from the spec: the three named error kinds of the GameModel
flip operation (spec section 7). -/
inductive SpecFlipError where
  | outOfBounds
  | alreadyFlipped
  | gameAlreadyOver
deriving DecidableEq, Repr

/-- Modelled from the spec: the state of the array-based GameModel
(spec section 4.2). -/
structure SpecModel where
  length : ℕ
  width : ℕ
  board : List (List ℕ)
  revealed : List (List Bool)
  score : SpecScore
  gameOver : Bool
deriving DecidableEq, Repr

/-- Modelled from the spec: whether any unrevealed tile with value 2 or 3
remains on the board (the win-check of spec section 4.2). -/
def hasHiddenMultiplier (board : List (List ℕ)) (revealed : List (List Bool)) : Bool :=
  (board.zip revealed).any (fun p =>
    (p.1.zip p.2).any (fun q => !q.2 && (q.1 == 2 || q.1 == 3)))

/-- Modelled from the spec: flip of the array-based GameModel, which is
referenced by src/view.py but missing from src/ (src/model.py is the
superseded list-based variant, spec section 9).  Checks run in the order
bounds, already-flipped, game-over; a bomb sets score = Lost and
gameOver = true; otherwise the score accumulates (first reveal sets it
directly) and, per the state-machine paragraph of spec section 4.2, the
win check runs after every non-bomb reveal: when no unrevealed 2- or
3-valued tile remains, score = Won and gameOver = true. -/
def flipSpec (m : SpecModel) (row col : ℤ) : Except SpecFlipError SpecModel :=
  if (m.length : ℤ) ≤ row ∨ row < 0 ∨ (m.width : ℤ) ≤ col ∨ col < 0 then
    .error .outOfBounds
  else if get2D m.revealed row.toNat col.toNat false then
    .error .alreadyFlipped
  else if m.gameOver then
    .error .gameAlreadyOver
  else
    let revealed2 := set2 m.revealed row.toNat col.toNat true
    let v := get2D m.board row.toNat col.toNat 0
    if v = 0 then
      .ok { m with revealed := revealed2, score := .lost, gameOver := true }
    else
      let score2 := match m.score with
        | .num 0 => SpecScore.num v
        | .num n => SpecScore.num (n * v)
        | s => s
      if hasHiddenMultiplier m.board revealed2 then
        .ok { m with revealed := revealed2, score := score2 }
      else
        .ok { m with revealed := revealed2, score := .won, gameOver := true }

/-- C2 (spec-modelled): after any successful flip of a non-bomb tile, if no
unrevealed tile with value 2 or 3 remains on the board, the score is the
Won sentinel and gameOver is true. -/
theorem c2_win_detection (m m' : SpecModel) (row col : ℤ)
    (h : flipSpec m row col = Except.ok m')
    (hv : get2D m.board row.toNat col.toNat 0 ≠ 0)
    (hwin : hasHiddenMultiplier m.board m'.revealed = false) :
    m'.score = SpecScore.won ∧ m'.gameOver = true := by
  simp only [flipSpec] at h
  by_cases hb : (m.length : ℤ) ≤ row ∨ row < 0 ∨ (m.width : ℤ) ≤ col ∨ col < 0
  · rw [if_pos hb] at h
    exact absurd h (by simp)
  · rw [if_neg hb] at h
    by_cases hf : get2D m.revealed row.toNat col.toNat false = true
    · rw [if_pos hf] at h
      exact absurd h (by simp)
    · rw [if_neg hf] at h
      by_cases hg : m.gameOver = true
      · rw [if_pos hg] at h
        exact absurd h (by simp)
      · rw [if_neg hg] at h
        rw [if_neg hv] at h
        by_cases hh : hasHiddenMultiplier m.board
            (set2 m.revealed row.toNat col.toNat true) = true
        · rw [if_pos hh] at h
          have hm := Except.ok.inj h
          rw [← hm] at hwin
          simp only at hwin
          rw [hwin] at hh
          exact absurd hh (by simp)
        · rw [if_neg hh] at h
          have hm := Except.ok.inj h
          rw [← hm]
          exact ⟨rfl, rfl⟩

/-- The fresh spec-modelled GameModel on the 2 by 2 board [[1, 0], [0, 1]],
which contains only bombs and 1-valued tiles. -/
def w2m : SpecModel :=
  { length := 2, width := 2, board := [[1, 0], [0, 1]],
    revealed := [[false, false], [false, false]],
    score := .num 0, gameOver := false }

/-- w2m after the flip of the 1-tile at (0, 0): with no 2- or 3-valued tile
anywhere, the win check fires at once. -/
def w2m' : SpecModel :=
  { w2m with
    revealed := [[true, false], [false, false]], score := .won,
    gameOver := true }

/-- C2 witness: on the 2 by 2 board [[1, 0], [0, 1]], which contains only
bombs and 1-valued tiles, flipping the non-bomb tile at (0, 0) succeeds and
no unrevealed 2- or 3-valued tile remains, so c2_win_detection applies and
gives score = Won, gameOver = true at this concrete input. -/
theorem c2_win_detection_witness :
    flipSpec w2m 0 0 = Except.ok w2m' ∧
    get2D w2m.board 0 0 0 ≠ 0 ∧
    hasHiddenMultiplier w2m.board w2m'.revealed = false ∧
    SpecModel.score w2m' = SpecScore.won ∧ SpecModel.gameOver w2m' = true := by
  refine ⟨rfl, by decide, by decide, ?_⟩
  exact c2_win_detection w2m w2m' 0 0 rfl (by decide) (by decide)

/-- Unfolding lemma: a revealed head cell contributes its value. -/
lemma rowRevealed_cons_true (x : ℕ) (tB : List ℕ) (tF : List Bool) :
    rowRevealed (x :: tB) (true :: tF) = x :: rowRevealed tB tF := by
  simp [rowRevealed]

/-- Unfolding lemma: an unrevealed head cell contributes nothing. -/
lemma rowRevealed_cons_false (x : ℕ) (tB : List ℕ) (tF : List Bool) :
    rowRevealed (x :: tB) (false :: tF) = rowRevealed tB tF := by
  simp [rowRevealed]

/-- Setting an unrevealed position of a row to revealed adds exactly the
value at that position to the revealed values, up to permutation. -/
lemma rowRevealed_set : ∀ (c : ℕ) (rowB : List ℕ) (rowF : List Bool) (v : ℕ),
    rowB.get? c = some v → rowF.get? c = some false →
    List.Perm (rowRevealed rowB (rowF.set c true)) (v :: rowRevealed rowB rowF)
  | 0, rowB, rowF, v, hb, hf => by
    cases rowB with
    | nil => simp at hb
    | cons x tB =>
      cases rowF with
      | nil => simp at hf
      | cons b tF =>
        have hx : x = v := by simpa using hb
        have hbf : b = false := by simpa using hf
        subst hx
        subst hbf
        rw [show (false :: tF).set 0 true = true :: tF from rfl,
          rowRevealed_cons_true, rowRevealed_cons_false]
  | (c + 1), rowB, rowF, v, hb, hf => by
    cases rowB with
    | nil => simp at hb
    | cons x tB =>
      cases rowF with
      | nil => simp at hf
      | cons b tF =>
        have hb' : tB.get? c = some v := by simpa using hb
        have hf' : tF.get? c = some false := by simpa using hf
        have ih := rowRevealed_set c tB tF v hb' hf'
        rw [show (b :: tF).set (c + 1) true = b :: tF.set c true from rfl]
        cases b with
        | false =>
          rw [rowRevealed_cons_false, rowRevealed_cons_false]
          exact ih
        | true =>
          rw [rowRevealed_cons_true, rowRevealed_cons_true]
          exact (ih.cons x).trans (List.Perm.swap v x (rowRevealed tB tF))

/-- The revealed tile values over an explicit board and flipped mask. -/
def revealedOf (board : List (List ℕ)) (flipped : List (List Bool)) : List ℕ :=
  ((board.zip flipped).map (fun p => rowRevealed p.1 p.2)).flatten

/-- revealedValues is revealedOf on the model fields. -/
lemma revealedValues_eq (m : Model) : revealedValues m = revealedOf m.board m.flipped := rfl

/-- Unfolding lemma for revealedOf on row cons. -/
lemma revealedOf_cons (rB : List ℕ) (bT : List (List ℕ)) (rF : List Bool)
    (fT : List (List Bool)) :
    revealedOf (rB :: bT) (rF :: fT) = rowRevealed rB rF ++ revealedOf bT fT := by
  simp [revealedOf]

/-- Setting an unrevealed cell of the mask to revealed adds exactly the board
value at that cell to the revealed values, up to permutation. -/
lemma revealedOf_set2 : ∀ (r : ℕ) (board : List (List ℕ)) (flipped : List (List Bool))
    (c v : ℕ), get2? board r c = some v → get2? flipped r c = some false →
    List.Perm (revealedOf board (set2 flipped r c true)) (v :: revealedOf board flipped)
  | 0, board, flipped, c, v, hb, hf => by
    cases board with
    | nil => simp [get2?] at hb
    | cons rB bT =>
      cases flipped with
      | nil => simp [get2?] at hf
      | cons rF fT =>
        have hb' : rB.get? c = some v := by simpa [get2?] using hb
        have hf' : rF.get? c = some false := by simpa [get2?] using hf
        have hset : set2 (rF :: fT) 0 c true = rF.set c true :: fT := by
          simp [set2]
        rw [hset, revealedOf_cons, revealedOf_cons]
        exact ((rowRevealed_set c rB rF v hb' hf').append_right _).trans
          (List.Perm.refl _)
  | (r + 1), board, flipped, c, v, hb, hf => by
    cases board with
    | nil => simp [get2?] at hb
    | cons rB bT =>
      cases flipped with
      | nil => simp [get2?] at hf
      | cons rF fT =>
        have hb' : get2? bT r c = some v := by simpa [get2?] using hb
        have hf' : get2? fT r c = some false := by simpa [get2?] using hf
        have ih := revealedOf_set2 r bT fT c v hb' hf'
        have hrow : ∃ rowF, fT.get? r = some rowF := by
          rcases hx : fT.get? r with _ | rowF
          · exfalso
            unfold get2? at hf'
            rw [hx] at hf'
            simp at hf'
          · exact ⟨rowF, rfl⟩
        obtain ⟨rowF, hrowF⟩ := hrow
        have hset : set2 (rF :: fT) (r + 1) c true = rF :: set2 fT r c true := by
          simp only [set2, List.get?_cons_succ, hrowF]
          rfl
        rw [hset, revealedOf_cons, revealedOf_cons]
        exact ((ih.append_left (rowRevealed rB rF)).trans List.perm_middle)

/-- Inversion of a successful flip_tile call: the preconditions all held and
the new state is the input state with the cell revealed, the game_over flag
set exactly on a bomb, and the score updated by the source's rules. -/
lemma flip_tile_ok (m m' : Model) (row col : ℤ) (h : flip_tile m row col = (m', none)) :
    ∃ v, m.game_over = false ∧
      get2? m.flipped row.toNat col.toNat = some false ∧
      get2? m.board row.toNat col.toNat = some v ∧
      m'.board = m.board ∧ m'.length = m.length ∧ m'.width = m.width ∧
      m'.row_data = m.row_data ∧ m'.col_data = m.col_data ∧
      m'.flipped = set2 m.flipped row.toNat col.toNat true ∧
      ((v = 0 ∧ m'.game_over = true ∧
          m'.score = (if scoreEqZero m.score then Score.text "YOU LOSE"
            else scoreMul m.score 0)) ∨
       (v ≠ 0 ∧ m'.game_over = false ∧
          m'.score = (if scoreEqZero m.score then Score.num v
            else scoreMul m.score v))) := by
  by_cases hb : (m.length : ℤ) ≤ row ∨ row < 0 ∨ (m.width : ℤ) ≤ col ∨ col < 0
  · simp only [flip_tile, if_pos hb] at h
    simp at h
  · rcases hf : get2? m.flipped row.toNat col.toNat with _ | b
    · simp only [flip_tile, if_neg hb, hf] at h
      simp at h
    · cases b
      · by_cases hg : m.game_over = true
        · simp only [flip_tile, if_neg hb, hf, if_pos hg] at h
          simp at h
        · have hg' : m.game_over = false := by simpa using hg
          rcases hv : get2? m.board row.toNat col.toNat with _ | v
          · simp only [flip_tile, if_neg hb, hf, hg', hv] at h
            simp at h
          · simp only [flip_tile, if_neg hb, hf] at h
            rw [if_neg hg] at h
            simp only [hv, Prod.mk.injEq, and_true] at h
            refine ⟨v, hg', rfl, rfl, ?_, ?_, ?_, ?_, ?_, ?_, ?_⟩ <;>
              rw [← h]
            by_cases hv0 : v = 0
            · subst hv0
              left
              exact ⟨rfl, by simp, by simp⟩
            · right
              exact ⟨hv0, by simp [hv0, hg'], by simp [hv0, hg']⟩
      · simp only [flip_tile, if_neg hb, hf] at h
        simp at h

/-- set2 never changes the number of rows. -/
lemma set2_length {α : Type} (g : List (List α)) (r c : ℕ) (a : α) :
    (set2 g r c a).length = g.length := by
  unfold set2
  rcases g.get? r with _ | row2
  · rfl
  · exact List.length_set g r _

/-- Every row of a grid after set2 is a row of the grid or a written copy of
one. -/
lemma set2_mem {α : Type} (g : List (List α)) (r c : ℕ) (a : α) (row : List α)
    (h : row ∈ set2 g r c a) : row ∈ g ∨ ∃ row0 ∈ g, row = row0.set c a := by
  unfold set2 at h
  split at h
  · exact Or.inl h
  · rcases List.mem_or_eq_of_mem_set h with hmem | heq
    · exact Or.inl hmem
    · rename_i row2 hrow2
      exact Or.inr ⟨row2, List.get?_mem hrow2, heq⟩

/-- A cell that reads true still reads true after any set2 write of true. -/
lemma get2?_set2_true (g : List (List Bool)) (r c r2 c2 : ℕ)
    (h : get2? g r c = some true) : get2? (set2 g r2 c2 true) r c = some true := by
  unfold set2
  rcases hrow : g.get? r2 with _ | row2
  · exact h
  · by_cases hr : r = r2
    · subst hr
      obtain ⟨hlt, -⟩ := List.get?_eq_some.mp hrow
      unfold get2? at h ⊢
      rw [List.get?_set_eq_of_lt _ hlt]
      rw [hrow] at h
      simp only [Option.some_bind] at h ⊢
      by_cases hc : c = c2
      · subst hc
        obtain ⟨hlt2, -⟩ := List.get?_eq_some.mp h
        rw [List.get?_set_eq_of_lt _ hlt2]
      · rw [List.get?_set_ne _ _ (Ne.symm hc)]
        exact h
    · unfold get2? at h ⊢
      rw [List.get?_set_ne _ _ (Ne.symm hr)]
      exact h

/-- The immutable fields of the model never change along reachability. -/
lemma reach_fixed (m0 m : Model) (h : Reach m0 m) :
    m.board = m0.board ∧ m.length = m0.length ∧ m.width = m0.width ∧
    m.row_data = m0.row_data ∧ m.col_data = m0.col_data := by
  induction h with
  | refl => exact ⟨rfl, rfl, rfl, rfl, rfl⟩
  | step row col hr hf ih =>
    obtain ⟨v, -, -, -, hb', hl', hw', hrd', hcd', -, -⟩ := flip_tile_ok _ _ _ _ hf
    exact ⟨hb'.trans ih.1, hl'.trans ih.2.1, hw'.trans ih.2.2.1,
      hrd'.trans ih.2.2.2.1, hcd'.trans ih.2.2.2.2⟩

/-- The revealed mask is monotone along reachability: a revealed cell stays
revealed. -/
lemma reach_flipped_mono (m0 m : Model) (h : Reach m0 m) (r c : ℕ)
    (ht : get2? m0.flipped r c = some true) : get2? m.flipped r c = some true := by
  induction h with
  | refl => exact ht
  | step row col hr hf ih =>
    obtain ⟨v, -, -, -, -, -, -, -, -, hfl2, -⟩ := flip_tile_ok _ _ _ _ hf
    rw [hfl2]
    exact get2?_set2_true _ _ _ _ _ ih

/-- Well-formedness is preserved along reachability. -/
lemma reach_WF (m0 m : Model) (h : Reach m0 m) (hwf : WF m0) : WF m := by
  induction h with
  | refl => exact hwf
  | step row col hr hf ih =>
    obtain ⟨v, -, -, -, hb', hl', hw', -, -, hfl2, -⟩ := flip_tile_ok _ _ _ _ hf
    obtain ⟨w1, w2, w3, w4, w5⟩ := ih
    refine ⟨?_, ?_, ?_, ?_, ?_⟩
    · rw [hb', hl']
      exact w1
    · rw [hb', hw']
      exact w2
    · rw [hfl2, hl', set2_length]
      exact w3
    · rw [hfl2, hw']
      intro row hrow
      rcases set2_mem _ _ _ _ _ hrow with hmem | ⟨row0, hrow0, heq⟩
      · exact w4 row hmem
      · rw [heq, List.length_set]
        exact w4 row0 hrow0
    · rw [hb']
      exact w5

/-- scoreEqZero holds of a numeric score exactly when it is zero. -/
lemma scoreEqZero_num_iff (n : ℕ) : scoreEqZero (Score.num n) = true ↔ n = 0 := by
  cases n <;> simp [scoreEqZero]

/-- A row with an all-false mask reveals nothing. -/
lemma rowRevealed_nil_of_false (rowB : List ℕ) (rowF : List Bool)
    (h : ∀ b ∈ rowF, b = false) : rowRevealed rowB rowF = [] := by
  unfold rowRevealed
  have hfil : (rowB.zip rowF).filter (fun p => p.2) = [] := by
    rw [List.filter_eq_nil_iff]
    intro p hp
    have hb := (List.of_mem_zip hp).2
    simp [h p.2 hb]
  rw [hfil]
  rfl

/-- A grid with an all-false mask reveals nothing. -/
lemma revealedOf_nil_of_false (board : List (List ℕ)) (flipped : List (List Bool))
    (h : ∀ row ∈ flipped, ∀ b ∈ row, b = false) : revealedOf board flipped = [] := by
  unfold revealedOf
  rw [List.flatten_eq_nil_iff]
  intro l hl
  rcases List.mem_map.mp hl with ⟨p, hp, rfl⟩
  exact rowRevealed_nil_of_false _ _ (h p.2 (List.of_mem_zip hp).2)

/-- A freshly constructed model has score 0, is not over, carries the given
board, and has an all-false flipped mask. -/
lemma init_state (L W : ℕ) (b : List (List ℕ)) (m0 : Model)
    (h : Model.init L W b = some m0) :
    m0.score = Score.num 0 ∧ m0.game_over = false ∧ m0.board = b ∧
    (∀ row ∈ m0.flipped, ∀ x ∈ row, x = false) := by
  unfold Model.init at h
  split at h
  · exact absurd h (by simp)
  · rename_i flipped hresh
    split at h
    · exact absurd h (by simp)
    · have h0 := Option.some.inj h
      rw [← h0]
      refine ⟨rfl, rfl, rfl, ?_⟩
      simp only [reshape2D] at hresh
      split at hresh
      · split at hresh
        · have hfeq := Option.some.inj hresh
          rw [← hfeq]
          intro row hrow x hx
          rcases List.mem_map.mp hrow with ⟨n, -, rfl⟩
          have hx2 : x ∈ List.replicate (L * W) false :=
            List.drop_subset _ _ (List.take_subset _ _ hx)
          exact List.eq_of_mem_replicate hx2
        · exact absurd hresh (by simp)
      · exact absurd hresh (by simp)

/-- Invariant behind C4: along any run from an all-false, score-0, not-over
state, while the game is not over every revealed tile is a non-bomb and the
score is the pristine 0 before the first reveal and the product of the
revealed tile values afterwards. -/
lemma score_invariant (m0 m : Model) (h : Reach m0 m)
    (h0f : ∀ row ∈ m0.flipped, ∀ b ∈ row, b = false)
    (h0s : m0.score = Score.num 0) :
    m.game_over = false →
    (∀ v ∈ revealedValues m, v ≠ 0) ∧
    m.score = Score.num (if revealedValues m = [] then 0
      else (revealedValues m).prod) := by
  induction h with
  | refl =>
    intro hgo
    have hnil : revealedValues m0 = [] := by
      rw [revealedValues_eq]
      exact revealedOf_nil_of_false _ _ h0f
    rw [hnil]
    exact ⟨by simp, by simpa using h0s⟩
  | step row col hr hf ih =>
    rename_i m1 m2
    intro hgo
    obtain ⟨v, hgo1, hfl, hbv, hb', hl', hw', hrd', hcd', hfl2, hcase⟩ :=
      flip_tile_ok _ _ _ _ hf
    obtain ⟨ih1, ih2⟩ := ih hgo1
    rcases hcase with ⟨hv0, hgo2, -⟩ | ⟨hvne, hgo2, hsc2⟩
    · simp [hgo] at hgo2
    · have hperm : List.Perm (revealedValues m2) (v :: revealedValues m1) := by
        rw [revealedValues_eq, revealedValues_eq, hb', hfl2]
        exact revealedOf_set2 row.toNat m1.board m1.flipped col.toNat v hbv hfl
      constructor
      · intro x hx
        rcases List.mem_cons.mp (hperm.mem_iff.mp hx) with rfl | hmem
        · exact hvne
        · exact ih1 x hmem
      · have hlen : (revealedValues m2).length = (revealedValues m1).length + 1 := by
          rw [hperm.length_eq]
          rfl
        have hne2 : revealedValues m2 ≠ [] := by
          intro hh
          rw [hh] at hlen
          simp at hlen
        have hprod : (revealedValues m2).prod = v * (revealedValues m1).prod := by
          rw [hperm.prod_eq, List.prod_cons]
        rw [if_neg hne2, hprod]
        by_cases hz : scoreEqZero m1.score = true
        · have hrv1 : revealedValues m1 = [] := by
            by_contra hne1
            rw [ih2, if_neg hne1] at hz
            have hp0 : (revealedValues m1).prod = 0 := (scoreEqZero_num_iff _).mp hz
            have h0mem : (0 : ℕ) ∈ revealedValues m1 := List.prod_eq_zero_iff.mp hp0
            exact ih1 0 h0mem rfl
          rw [hsc2, if_pos hz, hrv1]
          simp
        · have hrv1ne : revealedValues m1 ≠ [] := by
            intro hh
            exact hz (by rw [ih2, if_pos hh]; rfl)
          rw [hsc2, if_neg hz, ih2, if_neg hrv1ne]
          simp only [scoreMul, Score.num.injEq]
          exact Nat.mul_comm _ _

/-- C4 (amended): in every reachable state of a freshly constructed model in
which the game is not over, every revealed tile is a non-bomb, and the score
is 0 before the first reveal and the product of the revealed tile values
afterwards (the first reveal sets it directly). -/
theorem c4_score_is_product_when_not_over (L W : ℕ) (b : List (List ℕ))
    (m0 m : Model) (hinit : Model.init L W b = some m0) (hr : Reach m0 m)
    (hgo : m.game_over = false) :
    (∀ v ∈ revealedValues m, v ≠ 0) ∧
    m.score = Score.num (if revealedValues m = [] then 0
      else (revealedValues m).prod) := by
  obtain ⟨hs, hg, -, hff⟩ := init_state L W b m0 hinit
  exact score_invariant m0 m hr hff hs hgo

/-- C4 counterexample: in the reachable game-over state exM2 (a 2-flip run
of the fresh model on [[2, 0], [1, 1]]), the product of the revealed
non-bomb tile values is 2 but the score is the integer 0, so the score is
not the product of the revealed non-bomb tile values in every reachable
state. -/
theorem c4_counterexample :
    Model.init 2 2 [[2, 0], [1, 1]] = some exM0 ∧
    flip_tile exM0 0 0 = (exM1, none) ∧
    flip_tile exM1 0 1 = (exM2, none) ∧
    ((revealedValues exM2).filter (fun v => v ≠ 0)).prod = 2 ∧
    exM2.score = Score.num 0 ∧ Score.num 0 ≠ Score.num 2 := by decide

/-- C4 witness: the amended statement applied to the concrete reachable
state exM1 (one 2-tile revealed, score 2). -/
theorem c4_score_is_product_witness :
    (∀ v ∈ revealedValues exM1, v ≠ 0) ∧
    exM1.score = Score.num (if revealedValues exM1 = [] then 0
      else (revealedValues exM1).prod) := by
  refine c4_score_is_product_when_not_over 2 2 [[2, 0], [1, 1]] exM0 exM1
    (by decide) ?_ (by decide)
  exact Reach.step 0 0 (Reach.refl exM0) (by decide)

/-- The index a Python subscript of a list of length n actually reads, for
indices in [-n, n). -/
def wrapInt (n : ℕ) (i : ℤ) : ℕ :=
  (if i < 0 then (n : ℤ) + i else i).toNat

/-- For a non-negative index no wrapping happens. -/
lemma wrapInt_nonneg (n : ℕ) (i : ℤ) (h : 0 ≤ i) : wrapInt n i = i.toNat := by
  unfold wrapInt
  rw [if_neg (by omega)]

/-- The wrapped index is in range. -/
lemma wrapInt_lt (n : ℕ) (i : ℤ) (h0 : -(n : ℤ) ≤ i) (h1 : i < n) :
    wrapInt n i < n := by
  unfold wrapInt
  split <;> omega

/-- pyGet reads the wrapped index, for indices in [-len, len). -/
lemma pyGet_eq {α : Type} (l : List α) (i : ℤ) (h0 : -(l.length : ℤ) ≤ i)
    (_h1 : i < l.length) : pyGet l i = l.get? (wrapInt l.length i) := by
  unfold pyGet wrapInt
  by_cases hi : 0 ≤ i
  · rw [if_pos hi, if_neg (by omega)]
  · rw [if_neg hi, if_pos (by omega), if_pos (by omega)]

/-- Evaluation of describe_tile on a well-formed model at any coordinates a
Python subscript accepts: the flipped and board cells at the wrapped
position exist, the board value is a tile value, and the description is the
placeholder for an unrevealed cell and the rendered value for a revealed
one. -/
lemma describe_tile_eval (m : Model) (hwf : WF m) (row col : ℤ)
    (hr0 : -(m.length : ℤ) ≤ row) (hr1 : row < m.length)
    (hc0 : -(m.width : ℤ) ≤ col) (hc1 : col < m.width) :
    ∃ bv v, get2? m.flipped (wrapInt m.length row) (wrapInt m.width col) = some bv ∧
      get2? m.board (wrapInt m.length row) (wrapInt m.width col) = some v ∧
      v ≤ 3 ∧
      describe_tile m row col = (if bv then some (toString v) else some "?") := by
  obtain ⟨wb1, wb2, wf1, wf2, wv⟩ := hwf
  have hrlt : wrapInt m.length row < m.length := wrapInt_lt _ _ hr0 hr1
  have hclt : wrapInt m.width col < m.width := wrapInt_lt _ _ hc0 hc1
  have hpf : pyGet m.flipped row = m.flipped.get? (wrapInt m.length row) := by
    have h := pyGet_eq m.flipped row (by rw [wf1]; exact hr0) (by rw [wf1]; exact hr1)
    rw [wf1] at h
    exact h
  have hpb : pyGet m.board row = m.board.get? (wrapInt m.length row) := by
    have h := pyGet_eq m.board row (by rw [wb1]; exact hr0) (by rw [wb1]; exact hr1)
    rw [wb1] at h
    exact h
  obtain ⟨rowF, hrowF⟩ : ∃ rowF, m.flipped.get? (wrapInt m.length row) = some rowF := by
    rcases hx : m.flipped.get? (wrapInt m.length row) with _ | rowF
    · exfalso
      have hlen := List.get?_eq_none.mp hx
      omega
    · exact ⟨rowF, rfl⟩
  obtain ⟨rowB, hrowB⟩ : ∃ rowB, m.board.get? (wrapInt m.length row) = some rowB := by
    rcases hx : m.board.get? (wrapInt m.length row) with _ | rowB
    · exfalso
      have hlen := List.get?_eq_none.mp hx
      omega
    · exact ⟨rowB, rfl⟩
  have hrowFlen : rowF.length = m.width := wf2 rowF (List.get?_mem hrowF)
  have hrowBlen : rowB.length = m.width := wb2 rowB (List.get?_mem hrowB)
  have hpc : pyGet rowF col = rowF.get? (wrapInt m.width col) := by
    have h := pyGet_eq rowF col (by rw [hrowFlen]; exact hc0) (by rw [hrowFlen]; exact hc1)
    rw [hrowFlen] at h
    exact h
  have hpbc : pyGet rowB col = rowB.get? (wrapInt m.width col) := by
    have h := pyGet_eq rowB col (by rw [hrowBlen]; exact hc0) (by rw [hrowBlen]; exact hc1)
    rw [hrowBlen] at h
    exact h
  obtain ⟨bv, hbv⟩ : ∃ bv, rowF.get? (wrapInt m.width col) = some bv := by
    rcases hx : rowF.get? (wrapInt m.width col) with _ | bv
    · exfalso
      have hlen := List.get?_eq_none.mp hx
      omega
    · exact ⟨bv, rfl⟩
  obtain ⟨v, hv⟩ : ∃ v, rowB.get? (wrapInt m.width col) = some v := by
    rcases hx : rowB.get? (wrapInt m.width col) with _ | v
    · exfalso
      have hlen := List.get?_eq_none.mp hx
      omega
    · exact ⟨v, rfl⟩
  refine ⟨bv, v, ?_, ?_, ?_, ?_⟩
  · unfold get2?
    rw [hrowF]
    simpa using hbv
  · unfold get2?
    rw [hrowB]
    simpa using hv
  · exact wv rowB (List.get?_mem hrowB) v (List.get?_mem hv)
  · unfold describe_tile
    rw [hpf, hrowF]
    simp only [Option.some_bind]
    rw [hpc, hbv]
    cases bv with
    | false => simp
    | true =>
      simp only
      rw [hpb, hrowB]
      simp only [Option.some_bind]
      rw [hpbc, hv]
      simp

/-- C9: on a well-formed model, for in-bounds coordinates describe_tile
always succeeds, returns the placeholder exactly when the tile is
unrevealed, and once a tile is revealed every later reachable state
describes it as its rendered board value, never reverting to the
placeholder.  describe_tile is a pure function of the state: it can mutate
nothing. -/
theorem c9_describe_tile (m m' : Model) (row col : ℤ) (hwf : WF m)
    (hreach : Reach m m') (hr0 : 0 ≤ row) (hr1 : row < (m.length : ℤ))
    (hc0 : 0 ≤ col) (hc1 : col < (m.width : ℤ)) :
    (∃ s, describe_tile m row col = some s ∧
      (s = "?" ↔ get2? m.flipped row.toNat col.toNat = some false)) ∧
    (get2? m.flipped row.toNat col.toNat = some true →
      describe_tile m row col = some (toString (get2D m.board row.toNat col.toNat 0)) ∧
      describe_tile m' row col = describe_tile m row col) := by
  obtain ⟨bv, v, hgf, hgb, hv3, heval⟩ :=
    describe_tile_eval m hwf row col (by omega) hr1 (by omega) hc1
  rw [wrapInt_nonneg _ _ hr0, wrapInt_nonneg _ _ hc0] at hgf hgb
  have hvstr : toString v ≠ "?" := by
    interval_cases v <;> decide
  constructor
  · cases bv with
    | false =>
      refine ⟨"?", ?_, ?_⟩
      · rw [heval]
        simp
      · simp [hgf]
    | true =>
      refine ⟨toString v, ?_, ?_⟩
      · rw [heval]
        simp
      · constructor
        · intro hs
          exact absurd hs hvstr
        · intro hs
          rw [hgf] at hs
          simp at hs
  · intro htrue
    have hbvt : bv = true := Option.some.inj (hgf.symm.trans htrue)
    subst hbvt
    have hdm : describe_tile m row col = some (toString v) := by
      rw [heval]
      simp
    have hgd : get2D m.board row.toNat col.toNat 0 = v := by
      unfold get2D
      rw [hgb]
      rfl
    refine ⟨by rw [hdm, hgd], ?_⟩
    obtain ⟨hb', hl', hw', -, -⟩ := reach_fixed m m' hreach
    have hwf' : WF m' := reach_WF m m' hreach hwf
    have htrue' : get2? m'.flipped row.toNat col.toNat = some true :=
      reach_flipped_mono m m' hreach _ _ htrue
    obtain ⟨bv', v', hgf', hgb', hv3', heval'⟩ := describe_tile_eval m' hwf' row col
      (by rw [hl']; omega) (by rw [hl']; exact hr1)
      (by rw [hw']; omega) (by rw [hw']; exact hc1)
    rw [hl'] at hgf' hgb'
    rw [hw'] at hgf' hgb'
    rw [wrapInt_nonneg _ _ hr0, wrapInt_nonneg _ _ hc0] at hgf' hgb'
    have hbv' : bv' = true := Option.some.inj (hgf'.symm.trans htrue')
    subst hbv'
    have hveq : v' = v := by
      rw [hb'] at hgb'
      exact Option.some.inj (hgb'.symm.trans hgb)
    rw [heval', hdm, hveq]
    simp

/-- C9 witness: on the concrete well-formed reachable model exM1 with the
revealed 2-tile at (0, 0), the theorem applies and the description is the
rendered tile value. -/
theorem c9_describe_tile_witness :
    (∃ s, describe_tile exM1 0 0 = some s ∧
      (s = "?" ↔ get2? exM1.flipped (0 : ℤ).toNat (0 : ℤ).toNat = some false)) ∧
    (get2? exM1.flipped (0 : ℤ).toNat (0 : ℤ).toNat = some true →
      describe_tile exM1 0 0 =
        some (toString (get2D exM1.board (0 : ℤ).toNat (0 : ℤ).toNat 0)) ∧
      describe_tile exM1 0 0 = describe_tile exM1 0 0) :=
  c9_describe_tile exM1 exM1 0 0 (by unfold WF; decide) (Reach.refl exM1)
    (by decide) (by decide) (by decide) (by decide)

/-- C10: describe_tile has no bounds check of its own; on a well-formed
model a negative row or column whose magnitude is at most the corresponding
dimension does not fail and silently yields the description of the tile at
the Python-wrapped position. -/
theorem c10_negative_index_wraps (m : Model) (row col : ℤ) (hwf : WF m)
    (hr0 : -(m.length : ℤ) ≤ row) (hr1 : row < m.length)
    (hc0 : -(m.width : ℤ) ≤ col) (hc1 : col < m.width) :
    describe_tile m row col =
      describe_tile m (if row < 0 then row + m.length else row)
        (if col < 0 then col + m.width else col) ∧
    (describe_tile m row col).isSome = true := by
  obtain ⟨bv, v, hgf, hgb, hv3, heval⟩ :=
    describe_tile_eval m hwf row col hr0 hr1 hc0 hc1
  obtain ⟨bv', v', hgf', hgb', hv3', heval'⟩ := describe_tile_eval m hwf
    (if row < 0 then row + m.length else row) (if col < 0 then col + m.width else col)
    (by split_ifs <;> omega) (by split_ifs <;> omega)
    (by split_ifs <;> omega) (by split_ifs <;> omega)
  have hwr : wrapInt m.length (if row < 0 then row + m.length else row) =
      wrapInt m.length row := by
    unfold wrapInt
    split_ifs <;> omega
  have hwc : wrapInt m.width (if col < 0 then col + m.width else col) =
      wrapInt m.width col := by
    unfold wrapInt
    split_ifs <;> omega
  rw [hwr, hwc] at hgf' hgb'
  have hbveq : bv' = bv := Option.some.inj (hgf'.symm.trans hgf)
  have hveq : v' = v := Option.some.inj (hgb'.symm.trans hgb)
  subst hbveq
  subst hveq
  constructor
  · rw [heval, heval']
  · rw [heval]
    cases bv' <;> simp

/-- C10 witness: on the concrete well-formed model exM1, describe_tile at
row -1 yields the description of the wrapped position (the last row) and
does not fail. -/
theorem c10_negative_index_wraps_witness :
    describe_tile exM1 (-1) 0 =
      describe_tile exM1 (if (-1 : ℤ) < 0 then (-1 : ℤ) + exM1.length else (-1 : ℤ))
        (if (0 : ℤ) < 0 then (0 : ℤ) + exM1.width else (0 : ℤ)) ∧
    (describe_tile exM1 (-1) 0).isSome = true :=
  c10_negative_index_wraps exM1 (-1) 0 (by unfold WF; decide) (by decide) (by decide)
    (by decide) (by decide)
